import Mathlib

/-!
Shallow embedding of the Virtual Memory File System core of
`memflow-daemon/src/commands/fuse/filesystem.rs`, together with proofs of the
specification claims about it.

Machine integers (`u64` inodes, `i32` process ids) are modelled as `Nat` / `Int`
with explicit reduction modulo `2^32` / `2^64` where the source masks bits.
Fallible FUSE replies are modelled as explicit reply inductives; the Rust
panic on an out-of-range slice index in `read` is modelled by a dedicated
`panicked` constructor.
-/

namespace Memflow

/-! ## Identifier codec

The source declares, via the `bitfield!` macro:
`pub struct INode(u64); pub pid, set_pid: 31, 0; pub mid, set_mid: 63, 32;`
so `pid` is the low 32 bits and `mid` the high 32 bits of a `u64`.
-/

/-- The constant `2^32`, the width of each `INode` bitfield component. -/
def U32 : Nat := 4294967296

namespace INode

/-- Bits 31..0 of an inode (`pid` accessor of the bitfield). -/
def pid (i : Nat) : Nat := i % U32

/-- Bits 63..32 of an inode (`mid` accessor of the bitfield). -/
def mid (i : Nat) : Nat := i / U32 % U32

/-- Replace bits 31..0 with the low 32 bits of `v` (`set_pid`). -/
def set_pid (i v : Nat) : Nat := i / U32 * U32 + v % U32

/-- Replace bits 63..32 with the low 32 bits of `v` (`set_mid`). -/
def set_mid (i v : Nat) : Nat := v % U32 * U32 + i % U32

/-- Packing a (primary, secondary) pair into an identifier, as the source does:
start from `INode(0)`, set the pid field, then the mid field. -/
def encode (p s : Nat) : Nat := set_mid (set_pid 0 p) s

end INode

/-! ## Entry model -/

/-- A file in the vmfs.  The `content_length` and `contents` callbacks of the
source (`Box<dyn Fn() -> u64>`, `Box<dyn Fn() -> Vec<u8>>`) are modelled as
functions from `Unit`; bytes are modelled as `Nat`. -/
structure VirtualFile where
  inode : Nat
  name : String
  content_length : Unit → Nat
  contents : Unit → List Nat

/-- A folder in the vmfs. -/
structure VirtualFolder where
  inode : Nat
  name : String
  children : List Nat

/-- Entries of the vmfs can either be Files or Folders. -/
inductive VirtualEntry where
  | Folder (folder : VirtualFolder)
  | File (file : VirtualFile)

def VirtualEntry.inode : VirtualEntry → Nat
  | .Folder folder => folder.inode
  | .File file => file.inode

def VirtualEntry.name : VirtualEntry → String
  | .Folder folder => folder.name
  | .File file => file.name

/-- The scope a vmfs module uses. -/
inductive VMFSModuleScope where
  | Connection
  | Process
  | Module

/-- The scope context uniquely describes a scope. -/
inductive VMFSScopeContext where
  | Connection (conn_id : String)
  | Process (conn_id : String) (pid : Int)
  | Module (conn_id : String) (pid : Int) (mid : Nat)

/-- A module of the vmfs (the `VMFSModule` trait object): a scope and an
`entry` constructor producing a `VirtualEntry` for a given inode and context. -/
structure VMFSModule where
  scope : VMFSModuleScope
  entry : Nat → VMFSScopeContext → VirtualEntry

/-! ## The entry mapping

`HashMap<u64, VirtualEntry>` is modelled as an association list whose `insert`
replaces any existing binding of the key, as the hash map does.  The number of
entries of the map is the length of the list. -/

/-- The entry mapping of one tree snapshot. -/
def FSMap := List (Nat × VirtualEntry)

/-- Remove every binding of key `k`. -/
def FSMap.eraseKey : FSMap → Nat → FSMap
  | [], _ => []
  | (k', v) :: rest, k =>
    if k' = k then FSMap.eraseKey rest k else (k', v) :: FSMap.eraseKey rest k

/-- Source `HashMap::insert`: bind `k` to `v`, replacing any previous binding. -/
def FSMap.insert (m : FSMap) (k : Nat) (v : VirtualEntry) : FSMap :=
  (k, v) :: FSMap.eraseKey m k

/-- Source `HashMap::get`. -/
def FSMap.get : FSMap → Nat → Option VirtualEntry
  | [], _ => none
  | (k', v) :: rest, k => if k' = k then some v else FSMap.get rest k

/-- The keys bound by the map. -/
def FSMap.keys (m : FSMap) : List Nat := m.map (fun p => p.1)

/-- Length of the map as a list (= number of entries when keys are unique). -/
def FSMap.length (m : FSMap) : Nat := List.length m

/-- Unique-keys invariant, maintained by `insert` starting from the empty map. -/
def FSMap.NodupKeys (m : FSMap) : Prop := m.keys.Nodup

theorem FSMap.keys_cons (a : Nat) (v : VirtualEntry) (rest : FSMap) :
    FSMap.keys ((a, v) :: rest) = a :: FSMap.keys rest := rfl

theorem FSMap.get_eraseKey_of_ne (m : FSMap) (k k' : Nat) (h : k' ≠ k) :
    FSMap.get (FSMap.eraseKey m k) k' = FSMap.get m k' := by
  induction m with
  | nil => rfl
  | cons p rest ih =>
    obtain ⟨a, v⟩ := p
    by_cases hak : a = k
    · rw [FSMap.eraseKey, if_pos hak, ih, FSMap.get,
        if_neg (fun e => h (hak ▸ Eq.symm e : k' = k))]
    · rw [FSMap.eraseKey, if_neg hak, FSMap.get, FSMap.get]
      by_cases hak' : a = k'
      · rw [if_pos hak', if_pos hak']
      · rw [if_neg hak', if_neg hak', ih]

theorem FSMap.get_insert_self (m : FSMap) (k : Nat) (v : VirtualEntry) :
    FSMap.get (FSMap.insert m k v) k = some v := by
  rw [FSMap.insert, FSMap.get, if_pos rfl]

theorem FSMap.get_insert_of_ne (m : FSMap) (k k' : Nat) (v : VirtualEntry) (h : k' ≠ k) :
    FSMap.get (FSMap.insert m k v) k' = FSMap.get m k' := by
  rw [FSMap.insert, FSMap.get, if_neg (fun e => h (Eq.symm e))]
  exact FSMap.get_eraseKey_of_ne m k k' h

theorem FSMap.eraseKey_of_not_mem (m : FSMap) (k : Nat) (h : k ∉ FSMap.keys m) :
    FSMap.eraseKey m k = m := by
  induction m with
  | nil => rfl
  | cons p rest ih =>
    obtain ⟨a, v⟩ := p
    rw [FSMap.keys_cons, List.mem_cons] at h
    push_neg at h
    rw [FSMap.eraseKey, if_neg (fun e => h.1 (Eq.symm e)), ih h.2]

theorem FSMap.length_insert_of_not_mem (m : FSMap) (k : Nat) (v : VirtualEntry)
    (h : k ∉ FSMap.keys m) : FSMap.length (FSMap.insert m k v) = FSMap.length m + 1 := by
  rw [FSMap.insert, FSMap.eraseKey_of_not_mem m k h]
  rfl

theorem FSMap.mem_keys_eraseKey (m : FSMap) (k j : Nat) (h : j ∈ FSMap.keys (FSMap.eraseKey m k)) :
    j ∈ FSMap.keys m ∧ j ≠ k := by
  induction m with
  | nil => exact absurd h (List.not_mem_nil j)
  | cons p rest ih =>
    obtain ⟨a, v⟩ := p
    by_cases hak : a = k
    · rw [FSMap.eraseKey, if_pos hak] at h
      have hj := ih h
      exact ⟨by rw [FSMap.keys_cons]; exact List.mem_cons_of_mem a hj.1, hj.2⟩
    · rw [FSMap.eraseKey, if_neg hak, FSMap.keys_cons, List.mem_cons] at h
      rcases h with h | h
      · subst h
        exact ⟨by rw [FSMap.keys_cons]; exact List.mem_cons_self j _, hak⟩
      · have hj := ih h
        exact ⟨by rw [FSMap.keys_cons]; exact List.mem_cons_of_mem a hj.1, hj.2⟩

theorem FSMap.mem_keys_insert (m : FSMap) (k : Nat) (j : Nat) (v : VirtualEntry)
    (h : j ∈ FSMap.keys (FSMap.insert m k v)) : j = k ∨ j ∈ FSMap.keys m := by
  rw [FSMap.insert, FSMap.keys_cons, List.mem_cons] at h
  rcases h with h | h
  · exact Or.inl h
  · exact Or.inr (FSMap.mem_keys_eraseKey m k j h).1

theorem FSMap.nodupKeys_eraseKey (m : FSMap) (k : Nat) (h : FSMap.NodupKeys m) :
    FSMap.NodupKeys (FSMap.eraseKey m k) := by
  induction m with
  | nil => exact h
  | cons p rest ih =>
    obtain ⟨a, v⟩ := p
    rw [FSMap.NodupKeys, FSMap.keys_cons, List.nodup_cons] at h
    by_cases hak : a = k
    · rw [FSMap.NodupKeys, FSMap.eraseKey, if_pos hak]
      exact ih h.2
    · rw [FSMap.NodupKeys, FSMap.eraseKey, if_neg hak, FSMap.keys_cons, List.nodup_cons]
      refine ⟨fun hmem => h.1 ?_, ih h.2⟩
      exact (FSMap.mem_keys_eraseKey rest k a hmem).1

theorem FSMap.nodupKeys_insert (m : FSMap) (k : Nat) (v : VirtualEntry)
    (h : FSMap.NodupKeys m) : FSMap.NodupKeys (FSMap.insert m k v) := by
  rw [FSMap.insert, FSMap.NodupKeys, FSMap.keys_cons, List.nodup_cons]
  refine ⟨fun hmem => ?_, FSMap.nodupKeys_eraseKey m k h⟩
  exact (FSMap.mem_keys_eraseKey m k k hmem).2 rfl

/-! ## Tree builder -/

/-- Modelled from the spec: the introspection backend returns an ordered list
of `(process id: 32-bit integer, process name: text)` pairs
(`Win32ProcessInfo` of the external `memflow_win32` crate; only the `pid` and
`name` fields are consumed by this core). -/
structure Win32ProcessInfo where
  pid : Int
  name : String

/-- The `pi.pid as u64` cast of the source: an `i32` sign-extended to `u64`. -/
def pid_u64 (p : Int) : Nat := (p % 18446744073709551616).toNat

/-- The low 32 bits actually stored in the inode pid field for a process id. -/
def pidBits (p : Int) : Nat := (p % 4294967296).toNat

/-- One iteration of the module loop in `create_process_folder`: bump the mid
field of the running inode, materialize the module entry, insert it into the
mapping and append the inode to the process folder's children. -/
def cpf_step (ctx : VMFSScopeContext) (acc : FSMap × List Nat × Nat) (module : VMFSModule) :
    FSMap × List Nat × Nat :=
  let inode := INode.set_mid acc.2.2 (INode.mid acc.2.2 + 1)
  let fse := module.entry inode ctx
  (FSMap.insert acc.1 inode fse, acc.2.1 ++ [inode], inode)

/-- The module loop of `create_process_folder` as a fold, named for the
invariant lemmas below. -/
def cpf_fold (ctx : VMFSScopeContext) (mods : List VMFSModule) (fs : FSMap) (ch : List Nat)
    (i : Nat) : FSMap × List Nat × Nat :=
  mods.foldl (cpf_step ctx) (fs, ch, i)

/-- Source `create_process_folder`: build the folder for one process, materialize the
process-scope module entries under it, insert everything into `fs` and return
the updated mapping together with the folder's inode. -/
def create_process_folder (conn_id : String) (modules_processes : List VMFSModule)
    (pi : Win32ProcessInfo) (fs : FSMap) : FSMap × Nat :=
  let inode0 := INode.set_pid 0 (pid_u64 pi.pid)
  let ctx := VMFSScopeContext.Process conn_id pi.pid
  let r := modules_processes.foldl (cpf_step ctx) (fs, ([] : List Nat), inode0)
  let prc : VirtualFolder :=
    ⟨inode0, toString pi.pid ++ "_" ++ pi.name.replace "." "_", r.2.1⟩
  (FSMap.insert r.1 prc.inode (VirtualEntry.Folder prc), prc.inode)

/-- One iteration of the process loop in `create_root_folder`: build the
process subtree into the mapping and append the returned folder inode to the
root's children. -/
def crf_step (conn_id : String) (modules_processes : List VMFSModule)
    (acc : FSMap × List Nat) (pi : Win32ProcessInfo) : FSMap × List Nat :=
  let q := create_process_folder conn_id modules_processes pi acc.1
  (q.1, acc.2 ++ [q.2])

/-- Source `create_root_folder`: build the whole mapping.  The external
`state.connection_mut` / `kernel.process_info_list()` collaborator is modelled
by the `procList` argument: `none` when the connection is gone or the listing
fails (the root then has no children), `some pis` on success. -/
def create_root_folder (conn_id : String) (modules_processes : List VMFSModule)
    (procList : Option (List Win32ProcessInfo)) : FSMap :=
  let r : FSMap × List Nat :=
    match procList with
    | some pis =>
      pis.foldl (crf_step conn_id modules_processes) (([] : FSMap), ([] : List Nat))
    | none => (([] : FSMap), ([] : List Nat))
  FSMap.insert r.1 0 (VirtualEntry.Folder ⟨0, conn_id, r.2⟩)

/-! ## Filesystem protocol adapter -/

/-- The mounted filesystem instance (`VirtualMemoryFileSystem`).  `Instant` is
modelled as a `Nat` count of elapsed seconds. -/
structure VirtualMemoryFileSystem where
  id : String
  conn_id : String
  uid : Nat
  gid : Nat
  last_refresh : Nat
  file_system : FSMap
  modules_connections : List VMFSModule
  modules_processes : List VMFSModule
  modules_modules : List VMFSModule

/-- Source `update_file_system`: rebuild the mapping and reset the timestamp when the
elapsed time since the last refresh exceeds 10 seconds, otherwise no-op. -/
def VirtualMemoryFileSystem.update_file_system (self : VirtualMemoryFileSystem)
    (procList : Option (List Win32ProcessInfo)) (now : Nat) : VirtualMemoryFileSystem :=
  if 10 < now - self.last_refresh then
    { self with
      file_system := create_root_folder self.conn_id self.modules_processes procList
      last_refresh := now }
  else self

/-- The `fuse::FileType` enumeration, restricted to the two kinds the source emits. -/
inductive FileType where
  | Directory
  | RegularFile
deriving DecidableEq

/-- The `fuse::FileAttr` record.  Timestamps are `Nat` seconds since the epoch
(`UNIX_EPOCH` is `0`). -/
structure FileAttr where
  ino : Nat
  size : Nat
  blocks : Nat
  atime : Nat
  mtime : Nat
  ctime : Nat
  crtime : Nat
  kind : FileType
  perm : Nat
  nlink : Nat
  uid : Nat
  gid : Nat
  rdev : Nat
  flags : Nat
deriving DecidableEq

/-- Default file TTL (`Duration::from_secs(1)`), as replied to the host. -/
def TTL : Nat := 1

/-- The `libc::ENOENT` error code. -/
def ENOENT : Int := 2

/-- Outcome of a `lookup` call.  `dropped` records the path on which the source
returns without invoking the reply object at all (folder parent, no matching
child). -/
inductive LookupReply where
  | entry (ttl : Nat) (attr : FileAttr) (generation : Nat)
  | error (errno : Int)
  | dropped
deriving DecidableEq

/-- Outcome of a `getattr` call. -/
inductive AttrReply where
  | attr (ttl : Nat) (attr : FileAttr)
  | error (errno : Int)
deriving DecidableEq

/-- Outcome of a `read` call.  `panicked` records the Rust panic raised by the
out-of-range slice `contents[offset..]` when `offset` exceeds the length. -/
inductive ReadReply where
  | data (bytes : List Nat)
  | error (errno : Int)
  | panicked
deriving DecidableEq

/-- Outcome of a `readdir` call: the sequence of `reply.add` calls, each with
(identifier, index of the next entry, kind, name). -/
inductive ReaddirReply where
  | ok (entries : List (Nat × Nat × FileType × String))
  | error (errno : Int)
deriving DecidableEq

/-- The attributes `lookup` replies for a matched child entry. -/
def lookup_attr (uid gid : Nat) : VirtualEntry → FileAttr
  | .Folder child_folder =>
    ⟨1 + child_folder.inode, 0, 0, 0, 0, 0, 0, FileType.Directory, 0o755, 2, uid, gid, 0, 0⟩
  | .File child_file =>
    ⟨1 + child_file.inode, child_file.content_length (), 1, 0, 0, 0, 0, FileType.RegularFile,
      0o644, 1, uid, gid, 0, 0⟩

/-- The child-scan loop of `lookup`: children absent from the mapping are
skipped; the first child whose name equals the (lossily converted) requested
name is answered with its attributes; if the loop ends, the source falls
through without replying (`dropped`). -/
def lookup_scan (fsm : FSMap) (uid gid : Nat) (name : String) : List Nat → LookupReply
  | [] => LookupReply.dropped
  | child :: rest =>
    match FSMap.get fsm child with
    | some child_entry =>
      if child_entry.name = name then LookupReply.entry TTL (lookup_attr uid gid child_entry) 0
      else lookup_scan fsm uid gid name rest
    | none => lookup_scan fsm uid gid name rest

/-- The reply computed by `lookup` against a given mapping. -/
def lookup_reply (fsm : FSMap) (uid gid : Nat) (parent : Nat) (name : String) : LookupReply :=
  match FSMap.get fsm (parent - 1) with
  | some (VirtualEntry.Folder folder) => lookup_scan fsm uid gid name folder.children
  | some (VirtualEntry.File _) => LookupReply.error ENOENT
  | none => LookupReply.error ENOENT

/-- Source `lookup(parent, name)`: refresh, then resolve and scan. -/
def VirtualMemoryFileSystem.lookup (self : VirtualMemoryFileSystem)
    (procList : Option (List Win32ProcessInfo)) (now : Nat) (parent : Nat) (name : String) :
    VirtualMemoryFileSystem × LookupReply :=
  let self := self.update_file_system procList now
  (self, lookup_reply self.file_system self.uid self.gid parent name)

/-- The reply computed by `getattr` against a given mapping.  The file branch
reports the hardcoded `size: 13` of the source (marked `// TODO:` there), not
the content-length callback. -/
def getattr_reply (fsm : FSMap) (uid gid : Nat) (ino : Nat) : AttrReply :=
  match FSMap.get fsm (ino - 1) with
  | some (VirtualEntry.Folder folder) =>
    AttrReply.attr TTL
      ⟨1 + folder.inode, 0, 0, 0, 0, 0, 0, FileType.Directory, 0o755, 2, uid, gid, 0, 0⟩
  | some (VirtualEntry.File file) =>
    AttrReply.attr TTL
      ⟨1 + file.inode, 13, 1, 0, 0, 0, 0, FileType.RegularFile, 0o644, 1, uid, gid, 0, 0⟩
  | none => AttrReply.error ENOENT

/-- Source `getattr(ino)`: refresh, then resolve. -/
def VirtualMemoryFileSystem.getattr (self : VirtualMemoryFileSystem)
    (procList : Option (List Win32ProcessInfo)) (now : Nat) (ino : Nat) :
    VirtualMemoryFileSystem × AttrReply :=
  let self := self.update_file_system procList now
  (self, getattr_reply self.file_system self.uid self.gid ino)

/-- The reply computed by `read`: materialize the contents and slice from
`offset`; a Rust slice `contents[offset..]` is defined only for
`offset ≤ length` and panics beyond it. -/
def read_reply (fsm : FSMap) (ino : Nat) (offset : Nat) : ReadReply :=
  match FSMap.get fsm (ino - 1) with
  | some (VirtualEntry.Folder _) => ReadReply.error ENOENT
  | some (VirtualEntry.File file) =>
    let contents := file.contents ()
    if offset ≤ contents.length then ReadReply.data (contents.drop offset)
    else ReadReply.panicked
  | none => ReadReply.error ENOENT

/-- Source `read(ino, offset, size)`: does not refresh; `size` is ignored by the
source body. -/
def VirtualMemoryFileSystem.read (self : VirtualMemoryFileSystem) (ino : Nat) (offset : Nat)
    (_size : Nat) : VirtualMemoryFileSystem × ReadReply :=
  (self, read_reply self.file_system ino offset)

/-- The entry list a `readdir` of `folder` assembles before pagination:
`.` and `..` with the fixed identifier 1, then each resolvable child as
(1 + inode, kind, name) in child-list order. -/
def readdir_entries (fsm : FSMap) (folder : VirtualFolder) : List (Nat × FileType × String) :=
  [(1, FileType.Directory, "."), (1, FileType.Directory, "..")] ++
    folder.children.filterMap (fun child =>
      match FSMap.get fsm child with
      | some (VirtualEntry.Folder child_folder) =>
        some (1 + child_folder.inode, FileType.Directory, child_folder.name)
      | some (VirtualEntry.File child_file) =>
        some (1 + child_file.inode, FileType.RegularFile, child_file.name)
      | none => none)

/-- The reply computed by `readdir`: enumerate the entry list, skip the first
`offset` entries and `reply.add` each remaining one with the index of the next
entry. -/
def readdir_reply (fsm : FSMap) (ino : Nat) (offset : Nat) : ReaddirReply :=
  match FSMap.get fsm (ino - 1) with
  | some (VirtualEntry.Folder folder) =>
    ReaddirReply.ok
      (((readdir_entries fsm folder).enum.drop offset).map
        (fun p => (p.2.1, p.1 + 1, p.2.2.1, p.2.2.2)))
  | some (VirtualEntry.File _) => ReaddirReply.error ENOENT
  | none => ReaddirReply.error ENOENT

/-- Source `readdir(ino, offset)`: refresh, then resolve and paginate. -/
def VirtualMemoryFileSystem.readdir (self : VirtualMemoryFileSystem)
    (procList : Option (List Win32ProcessInfo)) (now : Nat) (ino : Nat) (offset : Nat) :
    VirtualMemoryFileSystem × ReaddirReply :=
  let self := self.update_file_system procList now
  (self, readdir_reply self.file_system ino offset)

/-! ## Lifecycle manager (unmount cleanup) -/

/-- Modelled from the spec: the shared daemon state behind `state_lock_sync`
(the `state` module is not under `src/`): a registry of connections with their
open-mount reference counts, and the registry of active mounts
(`state.file_systems`), keyed by mount id. -/
structure DaemonState where
  connections : List (String × Int)
  file_systems : List String

/-- Source `conn.refcount -= 1` through `state.connection_mut(&conn_id)`: decrement
the refcount of the first connection with the given id; no-op when the
connection is already gone (tolerated silently). -/
def decrement_refcount : List (String × Int) → String → List (String × Int)
  | [], _ => []
  | (c, r) :: rest, conn_id =>
    if c = conn_id then (c, r - 1) :: rest else (c, r) :: decrement_refcount rest conn_id

/-- The body of the detached cleanup thread spawned by
`Drop for VirtualMemoryFileSystem`: under the state lock, if the mount id is
still registered, decrement the owning connection's refcount and deregister
the mount; otherwise do nothing. -/
def drop_cleanup (id conn_id : String) (st : DaemonState) : DaemonState :=
  if id ∈ st.file_systems then
    { connections := decrement_refcount st.connections conn_id
      file_systems := st.file_systems.filter (fun k => k ≠ id) }
  else st

/-! ## Arithmetic facts about the codec -/

theorem pidBits_lt (p : Int) : pidBits p < U32 := by
  unfold pidBits U32
  omega

theorem set_pid_zero (p : Int) : INode.set_pid 0 (pid_u64 p) = pidBits p := by
  unfold INode.set_pid pid_u64 pidBits U32
  omega

theorem encode_eq (p s : Nat) (hp : p < U32) (hs : s < U32) :
    INode.encode p s = p + s * U32 := by
  unfold INode.encode INode.set_mid INode.set_pid U32 at *
  omega

theorem set_mid_step (pb c : Nat) (hpb : pb < U32) (hc : c + 1 < U32) :
    INode.set_mid (pb + c * U32) (INode.mid (pb + c * U32) + 1) = pb + (c + 1) * U32 := by
  unfold INode.set_mid INode.mid U32 at *
  omega

theorem pidBits_ne_zero (p : Int) (hlo : -2147483648 ≤ p) (hhi : p < 2147483648)
    (hnz : p ≠ 0) : pidBits p ≠ 0 := by
  unfold pidBits
  omega

theorem pidBits_inj (a b : Int) (halo : -2147483648 ≤ a) (hahi : a < 2147483648)
    (hblo : -2147483648 ≤ b) (hbhi : b < 2147483648) (h : pidBits a = pidBits b) : a = b := by
  unfold pidBits at h
  omega

/-! ## Concrete fixtures used by the counterexamples and witnesses -/

/-- A file entry whose length callback reports 5 while its contents callback
produces 13 bytes; internal inode 5. -/
def exFile : VirtualFile := ⟨5, "a", fun _ => 5, fun _ => List.replicate 13 0⟩

/-- The root folder of the fixture tree, with the file and the subfolder as
children. -/
def exRoot : VirtualFolder := ⟨0, "root", [5, 7]⟩

/-- A subfolder with internal inode 7 whose only child is the file. -/
def exSub : VirtualFolder := ⟨7, "sub", [5]⟩

/-- The fixture mapping. -/
def exFS : FSMap :=
  [(0, VirtualEntry.Folder exRoot), (5, VirtualEntry.File exFile),
    (7, VirtualEntry.Folder exSub)]

/-- A fixture mounted instance over `exFS`, freshly refreshed at time 0. -/
def exVMFS : VirtualMemoryFileSystem := ⟨"m1", "c1", 1000, 1000, 0, exFS, [], [], []⟩

/-- A process-scope module materializing a file entry at the given inode. -/
def dummyModule : VMFSModule :=
  ⟨VMFSModuleScope.Process, fun ino _ => VirtualEntry.File ⟨ino, "f", fun _ => 0, fun _ => []⟩⟩

/-! ## Claim C4: identifier round-trip -/

/-- C4: for all 32-bit values `p` and `s`, decoding the identifier produced by
`encode(p, s)` recovers exactly `p` as the primary (`pid`) component and `s`
as the secondary (`mid`) component: the bitfield accessors are exact inverses
of the packing. -/
theorem c4_inode_roundtrip (p s : Nat) (hp : p < U32) (hs : s < U32) :
    INode.pid (INode.encode p s) = p ∧ INode.mid (INode.encode p s) = s := by
  unfold INode.pid INode.mid INode.encode INode.set_mid INode.set_pid U32 at *
  omega

/-- Witness for C4 at the concrete pair (7, 9). -/
theorem c4_inode_roundtrip_witness :
    INode.pid (INode.encode 7 9) = 7 ∧ INode.mid (INode.encode 7 9) = 9 :=
  c4_inode_roundtrip 7 9 (by decide) (by decide)

/-! ## Claim C1: read past the end of the payload -/

/-- C1 (failing-input evaluation): the claim demands that a read whose
`byte_offset` exceeds the payload length return an empty byte sequence and
never fault, but the source slices `contents[offset..]`, which panics there:
on the fixture file of payload length 13, `read` at offset 113 = 13 + 100
takes the panic path instead of returning empty data. -/
theorem c1_read_past_end_panics :
    (exVMFS.read 6 113 4096).2 = ReadReply.panicked ∧
    ReadReply.panicked ≠ ReadReply.data [] :=
  ⟨rfl, by decide⟩

/-! ## Claim C2: getattr size field -/

/-- C2 (failing-input evaluation): the claim demands that `getattr` report a
file size equal to the content-length provider's current value, but the source
hardcodes `size: 13` (marked `// TODO:`): on the fixture file whose
content-length provider returns 5, `getattr` reports size 13. -/
theorem c2_getattr_size_hardcoded :
    (exVMFS.getattr none 0 6).2 =
      AttrReply.attr TTL
        ⟨6, 13, 1, 0, 0, 0, 0, FileType.RegularFile, 0o644, 1, 1000, 1000, 0, 0⟩ ∧
    exFile.content_length () = 5 ∧ (13 : Nat) ≠ 5 :=
  ⟨rfl, rfl, by decide⟩

/-! ## Claim C3: lookup outcome taxonomy -/

/-- C3 counterexample: the claim says lookup always produces either an
attribute reply or a not-found reply, but when the parent is a Folder and no
child name matches, the source returns without calling the reply object at
all: looking up the name "b" (no child of the fixture root is named "b")
produces the dropped-without-reply outcome, not a not-found reply. -/
theorem c3_lookup_counterexample :
    (exVMFS.lookup none 0 1 "b").2 = LookupReply.dropped ∧
    LookupReply.dropped ≠ LookupReply.error ENOENT :=
  ⟨rfl, by decide⟩

/-- The scan loop of `lookup` expressed denotationally: it answers with the
attributes of the first child (in child-list order, skipping children absent
from the mapping) whose name equals the requested name, and falls through
without a reply when none matches. -/
theorem lookup_scan_spec (fsm : FSMap) (uid gid : Nat) (name : String)
    (children : List Nat) :
    lookup_scan fsm uid gid name children =
      match (children.filterMap (FSMap.get fsm)).find? (fun e => e.name == name) with
      | some e => LookupReply.entry TTL (lookup_attr uid gid e) 0
      | none => LookupReply.dropped := by
  induction children with
  | nil => rfl
  | cons c rest ih =>
    rw [lookup_scan]
    cases hg : FSMap.get fsm c with
    | none => rw [List.filterMap_cons_none hg, ih]
    | some e =>
      show (if e.name = name then LookupReply.entry TTL (lookup_attr uid gid e) 0
        else lookup_scan fsm uid gid name rest) = _
      by_cases hname : e.name = name
      · rw [if_pos hname, List.filterMap_cons_some hg,
          List.find?_cons_of_pos _ (by simp [hname])]
      · rw [if_neg hname, List.filterMap_cons_some hg,
          List.find?_cons_of_neg _ (by simp [hname]), ih]

/-- C3 (amended): lookup returns a not-found reply when the parent id does not
resolve or resolves to a File; when the parent resolves to a Folder, it
returns the attributes of the first child whose name matches — but when no
child name matches it ends without any reply (neither attributes nor
not-found, contrary to the original claim). -/
theorem c3_lookup_cases (self : VirtualMemoryFileSystem)
    (procList : Option (List Win32ProcessInfo)) (now parent : Nat) (name : String)
    (fsm : FSMap) (hfsm : fsm = (self.update_file_system procList now).file_system) :
    (FSMap.get fsm (parent - 1) = none →
      (self.lookup procList now parent name).2 = LookupReply.error ENOENT) ∧
    (∀ f, FSMap.get fsm (parent - 1) = some (VirtualEntry.File f) →
      (self.lookup procList now parent name).2 = LookupReply.error ENOENT) ∧
    (∀ folder, FSMap.get fsm (parent - 1) = some (VirtualEntry.Folder folder) →
      (∀ e, (folder.children.filterMap (FSMap.get fsm)).find? (fun x => x.name == name) =
          some e →
        (self.lookup procList now parent name).2 =
          LookupReply.entry TTL (lookup_attr self.uid self.gid e) 0) ∧
      ((folder.children.filterMap (FSMap.get fsm)).find? (fun x => x.name == name) = none →
        (self.lookup procList now parent name).2 = LookupReply.dropped)) := by
  subst hfsm
  have hbase : (self.lookup procList now parent name).2 =
      lookup_reply (self.update_file_system procList now).file_system
        (self.update_file_system procList now).uid
        (self.update_file_system procList now).gid parent name := rfl
  have huid : (self.update_file_system procList now).uid = self.uid := by
    rw [VirtualMemoryFileSystem.update_file_system]
    by_cases h : 10 < now - self.last_refresh
    · rw [if_pos h]
    · rw [if_neg h]
  have hgid : (self.update_file_system procList now).gid = self.gid := by
    rw [VirtualMemoryFileSystem.update_file_system]
    by_cases h : 10 < now - self.last_refresh
    · rw [if_pos h]
    · rw [if_neg h]
  refine ⟨?_, ?_, ?_⟩
  · intro hget
    rw [hbase, lookup_reply, hget]
  · intro f hget
    rw [hbase, lookup_reply, hget]
  · intro folder hget
    constructor
    · intro e hfind
      rw [hbase, lookup_reply, hget]
      show lookup_scan (self.update_file_system procList now).file_system
        (self.update_file_system procList now).uid
        (self.update_file_system procList now).gid name folder.children = _
      rw [lookup_scan_spec, hfind, huid, hgid]
    · intro hfind
      rw [hbase, lookup_reply, hget]
      show lookup_scan (self.update_file_system procList now).file_system
        (self.update_file_system procList now).uid
        (self.update_file_system procList now).gid name folder.children = _
      rw [lookup_scan_spec, hfind]

/-- Witness for C3 (amended): on the fixture tree, looking up the existing
child name "a" under the root answers with that file's attributes. -/
theorem c3_lookup_cases_witness :
    (exVMFS.lookup none 0 1 "a").2 =
      LookupReply.entry TTL (lookup_attr 1000 1000 (VirtualEntry.File exFile)) 0 :=
  (((c3_lookup_cases exVMFS none 0 1 "a" exFS rfl).2.2 exRoot rfl).1
    (VirtualEntry.File exFile) rfl)

/-! ## Claim C9: unmount cleanup idempotence -/

/-- C9: the unmount cleanup body is a no-op whenever the mount id is no longer
registered, and running it twice for the same mount id equals running it once —
so the owning connection's refcount is decremented at most once per mount and
double teardown never drives it further down. -/
theorem c9_cleanup_idempotent (id conn_id : String) (st : DaemonState) :
    (id ∉ st.file_systems → drop_cleanup id conn_id st = st) ∧
    drop_cleanup id conn_id (drop_cleanup id conn_id st) = drop_cleanup id conn_id st := by
  have hno : ∀ s : DaemonState, id ∉ s.file_systems → drop_cleanup id conn_id s = s := by
    intro s hs
    rw [drop_cleanup, if_neg hs]
  refine ⟨hno st, ?_⟩
  by_cases hmem : id ∈ st.file_systems
  · apply hno
    rw [drop_cleanup, if_pos hmem]
    simp [List.mem_filter]
  · rw [hno st hmem]
    exact hno st hmem

/-- Witness for C9: on a state where the mount id is not registered, cleanup
leaves the state unchanged. -/
theorem c9_cleanup_idempotent_witness :
    drop_cleanup "m1" "c1" (DaemonState.mk [("c1", 1)] ["m2"]) =
      DaemonState.mk [("c1", 1)] ["m2"] :=
  (c9_cleanup_idempotent "m1" "c1" (DaemonState.mk [("c1", 1)] ["m2"])).1 (by decide)

/-! ## Claim C7: refresh policy and frame effects -/

/-- C7: lookup, getattr and readdir all first run the refresh check and their
resulting state is exactly its output; the refresh check rebuilds the mapping
and resets the timestamp precisely when the elapsed time exceeds the 10-second
TTL and is the identity otherwise; and read does not refresh, leaving the
mounted state (snapshot and timestamp) unchanged. -/
theorem c7_refresh_frame (self : VirtualMemoryFileSystem)
    (procList : Option (List Win32ProcessInfo)) (now parent ino offset sz : Nat)
    (name : String) :
    (self.lookup procList now parent name).1 = self.update_file_system procList now ∧
    (self.getattr procList now ino).1 = self.update_file_system procList now ∧
    (self.readdir procList now ino offset).1 = self.update_file_system procList now ∧
    (self.read ino offset sz).1 = self ∧
    (now - self.last_refresh ≤ 10 → self.update_file_system procList now = self) ∧
    (10 < now - self.last_refresh →
      self.update_file_system procList now =
        { self with
          file_system := create_root_folder self.conn_id self.modules_processes procList
          last_refresh := now }) := by
  refine ⟨rfl, rfl, rfl, rfl, ?_, ?_⟩
  · intro h
    rw [VirtualMemoryFileSystem.update_file_system, if_neg (by omega)]
  · intro h
    rw [VirtualMemoryFileSystem.update_file_system, if_pos h]

/-- Witness for C7: within the TTL the refresh check is the identity, and past
the TTL it rebuilds the mapping and resets the timestamp. -/
theorem c7_refresh_frame_witness :
    exVMFS.update_file_system none 5 = exVMFS ∧
    exVMFS.update_file_system none 11 =
      { exVMFS with
        file_system := create_root_folder exVMFS.conn_id exVMFS.modules_processes none
        last_refresh := 11 } :=
  ⟨(c7_refresh_frame exVMFS none 5 1 1 0 0 "x").2.2.2.2.1 (by decide),
    (c7_refresh_frame exVMFS none 11 1 1 0 0 "x").2.2.2.2.2 (by decide)⟩

/-! ## Tree builder invariants (claims C5 and C6) -/

/-- Splitting a packed key `pb + m * 2^32` back into its components. -/
theorem key_split (pb m : Nat) (h : pb < U32) :
    (pb + m * U32) % U32 = pb ∧ (pb + m * U32) / U32 = m := by
  simp only [U32] at *
  constructor <;> omega

/-- Invariants of the module loop of `create_process_folder`, starting from a
running inode whose pid field is `pb` and whose mid field is `c`: the final
inode has mid `c + |mods|`; the children accumulate the freshly packed module
inodes in order; each module's entry is inserted under its inode; the map
grows by exactly one entry per module; and all new keys carry pid field `pb`
and a mid field in `(c, c + |mods|]`. -/
theorem cpf_fold_spec (ctx : VMFSScopeContext) (pb : Nat) (hpb : pb < U32) :
    ∀ (mods : List VMFSModule) (c : Nat) (fs : FSMap) (ch : List Nat),
      c + mods.length < U32 →
      (∀ j ∈ FSMap.keys fs, j % U32 ≠ pb ∨ j / U32 ≤ c) →
      (cpf_fold ctx mods fs ch (pb + c * U32)).2.2 = pb + (c + mods.length) * U32 ∧
      (cpf_fold ctx mods fs ch (pb + c * U32)).2.1 =
        ch ++ (List.range mods.length).map (fun k => pb + (c + k + 1) * U32) ∧
      FSMap.length (cpf_fold ctx mods fs ch (pb + c * U32)).1 =
        FSMap.length fs + mods.length ∧
      (∀ j ∈ FSMap.keys (cpf_fold ctx mods fs ch (pb + c * U32)).1,
        j ∈ FSMap.keys fs ∨ (j % U32 = pb ∧ c < j / U32 ∧ j / U32 ≤ c + mods.length)) ∧
      (∀ j, j % U32 ≠ pb ∨ j / U32 ≤ c →
        FSMap.get (cpf_fold ctx mods fs ch (pb + c * U32)).1 j = FSMap.get fs j) ∧
      (∀ k, (hk : k < mods.length) →
        FSMap.get (cpf_fold ctx mods fs ch (pb + c * U32)).1 (pb + (c + k + 1) * U32) =
          some ((mods.get ⟨k, hk⟩).entry (pb + (c + k + 1) * U32) ctx)) ∧
      (FSMap.NodupKeys fs → FSMap.NodupKeys (cpf_fold ctx mods fs ch (pb + c * U32)).1) := by
  intro mods
  induction mods with
  | nil =>
    intro c fs ch _ _
    refine ⟨rfl, by simp [cpf_fold], rfl, ?_, fun j _ => rfl, ?_, fun h => h⟩
    · intro j hj
      exact Or.inl hj
    · intro k hk
      exact absurd hk (Nat.not_lt_zero k)
  | cons module mods ih =>
    intro c fs ch hc hfresh
    have hstep : cpf_step ctx (fs, ch, pb + c * U32) module =
        (FSMap.insert fs (pb + (c + 1) * U32) (module.entry (pb + (c + 1) * U32) ctx),
          ch ++ [pb + (c + 1) * U32], pb + (c + 1) * U32) := by
      simp only [cpf_step]
      rw [set_mid_step pb c hpb (by simp only [List.length_cons] at hc; omega)]
    have hunfold : cpf_fold ctx (module :: mods) fs ch (pb + c * U32) =
        cpf_fold ctx mods
          (FSMap.insert fs (pb + (c + 1) * U32) (module.entry (pb + (c + 1) * U32) ctx))
          (ch ++ [pb + (c + 1) * U32]) (pb + (c + 1) * U32) := by
      rw [cpf_fold, List.foldl_cons, hstep, cpf_fold]
    have hkey1 := key_split pb (c + 1) hpb
    have hnotmem : pb + (c + 1) * U32 ∉ FSMap.keys fs := by
      intro hmem
      rcases hfresh _ hmem with h | h
      · exact h hkey1.1
      · rw [hkey1.2] at h
        omega
    have hfresh' : ∀ j ∈ FSMap.keys
        (FSMap.insert fs (pb + (c + 1) * U32) (module.entry (pb + (c + 1) * U32) ctx)),
        j % U32 ≠ pb ∨ j / U32 ≤ c + 1 := by
      intro j hj
      rcases FSMap.mem_keys_insert fs _ j _ hj with hj | hj
      · subst hj
        exact Or.inr (le_of_eq hkey1.2)
      · rcases hfresh j hj with h | h
        · exact Or.inl h
        · exact Or.inr (by omega)
    obtain ⟨h1, h2, h3, h4, h5, h6, h7⟩ :=
      ih (c + 1)
        (FSMap.insert fs (pb + (c + 1) * U32) (module.entry (pb + (c + 1) * U32) ctx))
        (ch ++ [pb + (c + 1) * U32])
        (by simp only [List.length_cons] at hc; omega) hfresh'
    have hfe : (fun k => pb + (c + 1 + k + 1) * U32) =
        ((fun k => pb + (c + k + 1) * U32) ∘ Nat.succ) := by
      funext k
      show pb + (c + 1 + k + 1) * U32 = pb + (c + (k + 1) + 1) * U32
      rw [show c + 1 + k + 1 = c + (k + 1) + 1 from by omega]
    refine ⟨?_, ?_, ?_, ?_, ?_, ?_, ?_⟩
    · rw [hunfold, h1, List.length_cons,
        show c + 1 + mods.length = c + (mods.length + 1) from by omega]
    · rw [hunfold, h2, List.append_assoc, List.length_cons, List.range_succ_eq_map,
        List.map_cons, List.map_map, hfe]
      rfl
    · rw [hunfold, h3, FSMap.length_insert_of_not_mem fs _ _ hnotmem, List.length_cons]
      omega
    · intro j hj
      rw [hunfold] at hj
      rcases h4 j hj with hj' | hj'
      · rcases FSMap.mem_keys_insert fs _ j _ hj' with hj'' | hj''
        · subst hj''
          exact Or.inr ⟨hkey1.1, by rw [hkey1.2]; omega,
            by rw [hkey1.2, List.length_cons]; omega⟩
        · exact Or.inl hj''
      · exact Or.inr ⟨hj'.1, by omega, by rw [List.length_cons]; omega⟩
    · intro j hj
      rw [hunfold, h5 j (by rcases hj with h | h; exact Or.inl h; exact Or.inr (by omega))]
      apply FSMap.get_insert_of_ne
      intro e
      rcases hj with h | h
      · exact h (e ▸ hkey1.1)
      · rw [e, hkey1.2] at h
        omega
    · intro k hk
      match k with
      | 0 =>
        rw [hunfold, h5 (pb + (c + 0 + 1) * U32) (Or.inr (le_of_eq hkey1.2))]
        exact FSMap.get_insert_self fs _ _
      | Nat.succ k' =>
        have hk' : k' < mods.length := by
          simp only [List.length_cons] at hk
          omega
        have h6' := h6 k' hk'
        rw [hunfold, show c + (k' + 1) + 1 = c + 1 + k' + 1 from by omega]
        exact h6'
    · intro hnd
      rw [hunfold]
      exact h7 (FSMap.nodupKeys_insert fs _ _ hnd)

/-- The inode returned by `create_process_folder` is the packed
(pid, mid = 0) identifier, unconditionally. -/
theorem create_process_folder_snd (conn_id : String) (mods : List VMFSModule)
    (pi : Win32ProcessInfo) (fs : FSMap) :
    (create_process_folder conn_id mods pi fs).2 = pidBits pi.pid := by
  rw [create_process_folder, set_pid_zero]

/-- Unfolding `create_process_folder` through the named fold. -/
theorem create_process_folder_unfold (conn_id : String) (mods : List VMFSModule)
    (pi : Win32ProcessInfo) (fs : FSMap) :
    create_process_folder conn_id mods pi fs =
      (FSMap.insert
        (cpf_fold (VMFSScopeContext.Process conn_id pi.pid) mods fs [] (pidBits pi.pid + 0 * U32)).1
        (pidBits pi.pid)
        (VirtualEntry.Folder ⟨pidBits pi.pid,
          toString pi.pid ++ "_" ++ pi.name.replace "." "_",
          (cpf_fold (VMFSScopeContext.Process conn_id pi.pid) mods fs []
            (pidBits pi.pid + 0 * U32)).2.1⟩),
       pidBits pi.pid) := by
  rw [create_process_folder, set_pid_zero]
  rfl

/-- Invariants of `create_process_folder`: it returns the (pid, 0) inode; it
adds exactly |mods| + 1 entries; every added key carries the process's pid
field; unique keys are preserved; the process folder is stored under the
(pid, 0) inode with the source's name format and the packed module inodes, in
order, as children; each module's entry is stored under its packed inode; and
keys with a different pid field are untouched. -/
theorem create_process_folder_spec (conn_id : String) (mods : List VMFSModule)
    (pi : Win32ProcessInfo) (fs : FSMap) (hM : mods.length < U32)
    (hfresh : ∀ j ∈ FSMap.keys fs, j % U32 ≠ pidBits pi.pid) :
    (create_process_folder conn_id mods pi fs).2 = pidBits pi.pid ∧
    FSMap.length (create_process_folder conn_id mods pi fs).1 =
      FSMap.length fs + mods.length + 1 ∧
    (∀ j ∈ FSMap.keys (create_process_folder conn_id mods pi fs).1,
      j ∈ FSMap.keys fs ∨ j % U32 = pidBits pi.pid) ∧
    (FSMap.NodupKeys fs → FSMap.NodupKeys (create_process_folder conn_id mods pi fs).1) ∧
    FSMap.get (create_process_folder conn_id mods pi fs).1 (pidBits pi.pid) =
      some (VirtualEntry.Folder ⟨pidBits pi.pid,
        toString pi.pid ++ "_" ++ pi.name.replace "." "_",
        (List.range mods.length).map (fun k => pidBits pi.pid + (k + 1) * U32)⟩) ∧
    (∀ k, (hk : k < mods.length) →
      FSMap.get (create_process_folder conn_id mods pi fs).1 (pidBits pi.pid + (k + 1) * U32) =
        some ((mods.get ⟨k, hk⟩).entry (pidBits pi.pid + (k + 1) * U32)
          (VMFSScopeContext.Process conn_id pi.pid))) ∧
    (∀ j, j % U32 ≠ pidBits pi.pid →
      FSMap.get (create_process_folder conn_id mods pi fs).1 j = FSMap.get fs j) := by
  have hpb : pidBits pi.pid < U32 := pidBits_lt pi.pid
  have hmod : pidBits pi.pid % U32 = pidBits pi.pid := Nat.mod_eq_of_lt hpb
  have hdiv : pidBits pi.pid / U32 = 0 := Nat.div_eq_of_lt hpb
  obtain ⟨h1, h2, h3, h4, h5, h6, h7⟩ :=
    cpf_fold_spec (VMFSScopeContext.Process conn_id pi.pid) (pidBits pi.pid) hpb mods 0 fs []
      (by omega) (fun j hj => Or.inl (hfresh j hj))
  simp only [Nat.zero_add] at h2 h6
  have hpbnot : pidBits pi.pid ∉ FSMap.keys
      (cpf_fold (VMFSScopeContext.Process conn_id pi.pid) mods fs []
        (pidBits pi.pid + 0 * U32)).1 := by
    intro hmem
    rcases h4 _ hmem with h | h
    · exact hfresh _ h hmod
    · rw [hdiv] at h
      omega
  refine ⟨create_process_folder_snd conn_id mods pi fs, ?_, ?_, ?_, ?_, ?_, ?_⟩
  · rw [create_process_folder_unfold,
      FSMap.length_insert_of_not_mem _ _ _ hpbnot, h3]
  · intro j hj
    rw [create_process_folder_unfold] at hj
    rcases FSMap.mem_keys_insert _ _ j _ hj with hj' | hj'
    · exact Or.inr (hj' ▸ hmod)
    · rcases h4 j hj' with h | h
      · exact Or.inl h
      · exact Or.inr h.1
  · intro hnd
    rw [create_process_folder_unfold]
    exact FSMap.nodupKeys_insert _ _ _ (h7 hnd)
  · rw [create_process_folder_unfold, h2]
    exact FSMap.get_insert_self _ _ _
  · intro k hk
    rw [create_process_folder_unfold]
    rw [FSMap.get_insert_of_ne _ _ _ _ (by
      intro e
      simp only [U32] at e
      omega)]
    exact h6 k hk
  · intro j hj
    rw [create_process_folder_unfold]
    rw [FSMap.get_insert_of_ne _ _ _ _ (fun e => hj (by rw [e]; exact hmod))]
    exact h5 j (Or.inl hj)

/-- The children the root-folder fold accumulates are exactly the packed
(pid, 0) inodes of the listed processes, in enumeration order — with no
hypotheses at all, because the per-process folder inode does not depend on the
mapping contents. -/
theorem crf_fold_children (conn_id : String) (mods : List VMFSModule) :
    ∀ (pis : List Win32ProcessInfo) (fs : FSMap) (ch : List Nat),
      (pis.foldl (crf_step conn_id mods) (fs, ch)).2 =
        ch ++ pis.map (fun pi => pidBits pi.pid) := by
  intro pis
  induction pis with
  | nil =>
    intro fs ch
    simp
  | cons pi rest ih =>
    intro fs ch
    have hstep : crf_step conn_id mods (fs, ch) pi =
        ((create_process_folder conn_id mods pi fs).1, ch ++ [pidBits pi.pid]) := by
      simp only [crf_step]
      rw [create_process_folder_snd]
    rw [List.foldl_cons, hstep, ih, List.map_cons, List.append_assoc]
    rfl

/-- Invariants of the process loop of `create_root_folder` over processes with
pairwise distinct pid fields: each process contributes |mods| + 1 entries, all
added keys carry the pid field of some listed process, and unique keys are
preserved. -/
theorem crf_fold_spec (conn_id : String) (mods : List VMFSModule) (hM : mods.length < U32) :
    ∀ (pis : List Win32ProcessInfo) (fs : FSMap) (ch : List Nat),
      (∀ pi ∈ pis, ∀ j ∈ FSMap.keys fs, j % U32 ≠ pidBits pi.pid) →
      (pis.map (fun pi => pidBits pi.pid)).Nodup →
      FSMap.length (pis.foldl (crf_step conn_id mods) (fs, ch)).1 =
        FSMap.length fs + pis.length * (mods.length + 1) ∧
      (∀ j ∈ FSMap.keys (pis.foldl (crf_step conn_id mods) (fs, ch)).1,
        j ∈ FSMap.keys fs ∨ ∃ pi ∈ pis, j % U32 = pidBits pi.pid) ∧
      (FSMap.NodupKeys fs → FSMap.NodupKeys (pis.foldl (crf_step conn_id mods) (fs, ch)).1) := by
  intro pis
  induction pis with
  | nil =>
    intro fs ch _ _
    refine ⟨by simp, ?_, fun h => h⟩
    intro j hj
    exact Or.inl hj
  | cons pi rest ih =>
    intro fs ch hfresh hnodup
    rw [List.map_cons, List.nodup_cons] at hnodup
    obtain ⟨c1, c2, c3, c4, c5, c6, c7⟩ :=
      create_process_folder_spec conn_id mods pi fs hM
        (fun j hj => hfresh pi (List.mem_cons_self pi rest) j hj)
    have hstep : crf_step conn_id mods (fs, ch) pi =
        ((create_process_folder conn_id mods pi fs).1, ch ++ [pidBits pi.pid]) := by
      simp only [crf_step]
      rw [create_process_folder_snd]
    have hfresh' : ∀ pj ∈ rest,
        ∀ j ∈ FSMap.keys (create_process_folder conn_id mods pi fs).1,
        j % U32 ≠ pidBits pj.pid := by
      intro pj hpj j hj
      rcases c3 j hj with h | h
      · exact hfresh pj (List.mem_cons_of_mem pi hpj) j h
      · rw [h]
        intro e
        exact hnodup.1 (e ▸ List.mem_map_of_mem (fun q => pidBits q.pid) hpj)
    obtain ⟨g1, g2, g3⟩ :=
      ih (create_process_folder conn_id mods pi fs).1 (ch ++ [pidBits pi.pid])
        hfresh' hnodup.2
    refine ⟨?_, ?_, ?_⟩
    · rw [List.foldl_cons, hstep, g1, c2, List.length_cons]
      ring
    · intro j hj
      rw [List.foldl_cons, hstep] at hj
      rcases g2 j hj with h | ⟨pj, hpj, h⟩
      · rcases c3 j h with h' | h'
        · exact Or.inl h'
        · exact Or.inr ⟨pi, List.mem_cons_self pi rest, h'⟩
      · exact Or.inr ⟨pj, List.mem_cons_of_mem pi hpj, h⟩
    · intro hnd
      rw [List.foldl_cons, hstep]
      exact g3 (c4 hnd)

/-- A `filterMap` whose function succeeds on every element preserves length. -/
theorem length_filterMap_of_forall_isSome {α β : Type} (f : α → Option β) (l : List α)
    (h : ∀ a ∈ l, (f a).isSome) : (l.filterMap f).length = l.length := by
  induction l with
  | nil => rfl
  | cons a t ih =>
    cases hfa : f a with
    | none =>
      have := h a (List.mem_cons_self a t)
      rw [hfa] at this
      exact absurd this (by simp)
    | some b =>
      rw [List.filterMap_cons_some hfa, List.length_cons,
        ih (fun d hd => h d (List.mem_cons_of_mem a hd))]
      rfl

/-- When every child of a list resolves in the mapping, the readdir child
transformation drops nothing. -/
theorem filterMap_child_length (fsm : FSMap) (l : List Nat)
    (h : ∀ c ∈ l, (FSMap.get fsm c).isSome) :
    (l.filterMap (fun child =>
      match FSMap.get fsm child with
      | some (VirtualEntry.Folder child_folder) =>
        some (1 + child_folder.inode, FileType.Directory, child_folder.name)
      | some (VirtualEntry.File child_file) =>
        some (1 + child_file.inode, FileType.RegularFile, child_file.name)
      | none => none)).length = l.length := by
  apply length_filterMap_of_forall_isSome
  intro c hc
  have hcs := h c hc
  cases hg : FSMap.get fsm c with
  | none => rw [hg] at hcs; exact absurd hcs (by simp)
  | some e =>
    cases e with
    | Folder child_folder => simp [hg]
    | File child_file => simp [hg]

/-- C8: for a folder with K resolvable children, readdir pages through a fixed
list: every call yields the sub-sequence of the offset-0 listing starting at
the requested offset, the offset-0 listing has K+2 entries, the call at offset
K+2 yields the empty sequence, and the listed triples are exactly `.`, `..`,
then the children in child-list order. -/
theorem c8_readdir_pagination (self : VirtualMemoryFileSystem)
    (procList : Option (List Win32ProcessInfo)) (now ino : Nat) (folder : VirtualFolder)
    (fsm : FSMap) (hfsm : fsm = (self.update_file_system procList now).file_system)
    (hf : FSMap.get fsm (ino - 1) = some (VirtualEntry.Folder folder))
    (hres : ∀ c ∈ folder.children, (FSMap.get fsm c).isSome) :
    (∀ offset, (self.readdir procList now ino offset).2 =
      ReaddirReply.ok
        (((readdir_entries fsm folder).enum.map
            (fun p => (p.2.1, p.1 + 1, p.2.2.1, p.2.2.2))).drop offset)) ∧
    ((readdir_entries fsm folder).enum.map
        (fun p => (p.2.1, p.1 + 1, p.2.2.1, p.2.2.2))).length =
      folder.children.length + 2 ∧
    (self.readdir procList now ino (folder.children.length + 2)).2 = ReaddirReply.ok [] ∧
    ((readdir_entries fsm folder).enum.map
        (fun p => (p.2.1, p.1 + 1, p.2.2.1, p.2.2.2))).map (fun e => (e.1, e.2.2)) =
      readdir_entries fsm folder := by
  subst hfsm
  have hmain : ∀ offset, (self.readdir procList now ino offset).2 =
      ReaddirReply.ok
        ((((readdir_entries (self.update_file_system procList now).file_system folder).enum).drop
            offset).map (fun p => (p.2.1, p.1 + 1, p.2.2.1, p.2.2.2))) := by
    intro offset
    show readdir_reply (self.update_file_system procList now).file_system ino offset = _
    rw [readdir_reply, hf]
  have hents : (readdir_entries (self.update_file_system procList now).file_system
      folder).length = folder.children.length + 2 := by
    rw [readdir_entries, List.length_append,
      filterMap_child_length (self.update_file_system procList now).file_system
        folder.children hres]
    simp [Nat.add_comm]
  refine ⟨?_, ?_, ?_, ?_⟩
  · intro offset
    rw [hmain offset, List.map_drop]
  · rw [List.length_map, List.enum, List.enumFrom_length, hents]
  · rw [hmain (folder.children.length + 2), List.drop_eq_nil_of_le, List.map_nil]
    rw [List.enum, List.enumFrom_length, hents]
  · rw [List.map_map]
    have hsnd : ((fun e : Nat × Nat × FileType × String => (e.1, e.2.2)) ∘
        (fun p : Nat × (Nat × FileType × String) => (p.2.1, p.1 + 1, p.2.2.1, p.2.2.2))) =
        Prod.snd := funext fun p => rfl
    rw [hsnd, List.enum, List.enumFrom_map_snd]

/-- Witness for C8: on the fixture subfolder (one child), readdir at offset
1 + 2 = 3 yields the empty sequence. -/
theorem c8_readdir_pagination_witness :
    (exVMFS.readdir none 0 8 3).2 = ReaddirReply.ok [] :=
  (c8_readdir_pagination exVMFS none 0 8 exSub exFS rfl rfl (by decide)).2.2.1

/-- C10: the `.` and `..` pseudo-entries synthesized by readdir both carry the
fixed external identifier 1 — the root's external identifier — for every
listed folder, independent of the folder's own inode. -/
theorem c10_dot_entries_fixed_ino (self : VirtualMemoryFileSystem)
    (procList : Option (List Win32ProcessInfo)) (now ino : Nat) (folder : VirtualFolder)
    (fsm : FSMap) (hfsm : fsm = (self.update_file_system procList now).file_system)
    (hf : FSMap.get fsm (ino - 1) = some (VirtualEntry.Folder folder)) :
    (self.readdir procList now ino 0).2 =
      ReaddirReply.ok ((readdir_entries fsm folder).enum.map
        (fun p => (p.2.1, p.1 + 1, p.2.2.1, p.2.2.2))) ∧
    ((readdir_entries fsm folder).enum.map
        (fun p => (p.2.1, p.1 + 1, p.2.2.1, p.2.2.2))).take 2 =
      [(1, 1, FileType.Directory, "."), (1, 2, FileType.Directory, "..")] := by
  subst hfsm
  constructor
  · show readdir_reply (self.update_file_system procList now).file_system ino 0 = _
    rw [readdir_reply, hf]
    rfl
  · rfl

/-- Witness for C10: on the fixture subfolder (inode 7, external id 8), the
first two readdir entries carry external identifier 1, not 8. -/
theorem c10_dot_entries_fixed_ino_witness :
    ((readdir_entries exFS exSub).enum.map
        (fun p => (p.2.1, p.1 + 1, p.2.2.1, p.2.2.2))).take 2 =
      [(1, 1, FileType.Directory, "."), (1, 2, FileType.Directory, "..")] :=
  (c10_dot_entries_fixed_ino exVMFS none 0 8 exSub exFS rfl rfl).2

/-! ## Claim C5: tree entry count and identifier uniqueness -/

/-- C5 counterexample: the claim promises `1 + N + N*M` entries for every
build over N distinct process ids, but a process with pid 0 receives the same
packed identifier as the root (0), and the root — inserted last — overwrites
its folder: the build over the single process (0, "a.exe") with one module
has 2 entries, not 1 + 1 + 1*1 = 3. -/
theorem c5_pid_zero_collision :
    FSMap.length (create_root_folder "c1" [dummyModule] (some [⟨0, "a.exe"⟩])) = 2 ∧
    (2 : Nat) ≠ 1 + 1 + 1 * 1 :=
  ⟨rfl, by decide⟩

/-- C5 (amended): for every build over N processes with distinct, nonzero
32-bit process ids, each contributing M < 2^32 process-scope module entries,
the resulting mapping has exactly `1 + N + N*M` entries and no two distinct
entries share an identifier. -/
theorem c5_tree_uniqueness (conn_id : String) (mods : List VMFSModule)
    (pis : List Win32ProcessInfo) (hM : mods.length < U32)
    (hrange : ∀ pi ∈ pis, -2147483648 ≤ pi.pid ∧ pi.pid < 2147483648)
    (hnz : ∀ pi ∈ pis, pi.pid ≠ 0)
    (hnodup : (pis.map (fun pi => pi.pid)).Nodup) :
    FSMap.length (create_root_folder conn_id mods (some pis)) =
      1 + pis.length + pis.length * mods.length ∧
    FSMap.NodupKeys (create_root_folder conn_id mods (some pis)) := by
  have hpbnodup : (pis.map (fun pi => pidBits pi.pid)).Nodup := by
    have hmm : pis.map (fun pi => pidBits pi.pid) =
        (pis.map (fun pi => pi.pid)).map pidBits := by
      rw [List.map_map]
      rfl
    rw [hmm]
    refine List.Nodup.map_on ?_ hnodup
    intro x hx y hy hxy
    obtain ⟨px, hpx, hpx2⟩ := List.mem_map.1 hx
    obtain ⟨py, hpy, hpy2⟩ := List.mem_map.1 hy
    subst hpx2
    subst hpy2
    exact pidBits_inj px.pid py.pid (hrange px hpx).1 (hrange px hpx).2
      (hrange py hpy).1 (hrange py hpy).2 hxy
  obtain ⟨g1, g2, g3⟩ :=
    crf_fold_spec conn_id mods hM pis [] []
      (fun pi _ j hj => absurd hj (List.not_mem_nil j)) hpbnodup
  have hroot : create_root_folder conn_id mods (some pis) =
      FSMap.insert (pis.foldl (crf_step conn_id mods) ([], [])).1 0
        (VirtualEntry.Folder ⟨0, conn_id, (pis.foldl (crf_step conn_id mods) ([], [])).2⟩) := by
    rw [create_root_folder]
  have h0 : (0 : Nat) ∉ FSMap.keys (pis.foldl (crf_step conn_id mods) ([], [])).1 := by
    intro hmem
    rcases g2 0 hmem with h | ⟨pi, hpi, h⟩
    · exact absurd h (List.not_mem_nil 0)
    · rw [Nat.zero_mod] at h
      exact pidBits_ne_zero pi.pid (hrange pi hpi).1 (hrange pi hpi).2 (hnz pi hpi) h.symm
  constructor
  · rw [hroot, FSMap.length_insert_of_not_mem _ _ _ h0, g1,
      show FSMap.length ([] : FSMap) = 0 from rfl]
    ring
  · rw [hroot]
    exact FSMap.nodupKeys_insert _ _ _ (g3 List.nodup_nil)

/-- Witness for C5 (amended): the build over processes (10, "a.exe") and
(20, "b.exe") with one module has 1 + 2 + 2*1 = 5 entries, all with distinct
identifiers. -/
theorem c5_tree_uniqueness_witness :
    FSMap.length (create_root_folder "c1" [dummyModule]
      (some [⟨10, "a.exe"⟩, ⟨20, "b.exe"⟩])) = 1 + 2 + 2 * 1 ∧
    FSMap.NodupKeys (create_root_folder "c1" [dummyModule]
      (some [⟨10, "a.exe"⟩, ⟨20, "b.exe"⟩])) :=
  c5_tree_uniqueness "c1" [dummyModule] [⟨10, "a.exe"⟩, ⟨20, "b.exe"⟩]
    (by decide) (by decide) (by decide) (by decide)

/-! ## Claim C6: per-process construction layout -/

/-- C6: the builder returns the process folder inode `encode(pid, 0)`, stores
under it a Folder named `"{pid}_{name with dots replaced by underscores}"`
whose children are `encode(pid, 1), ..., encode(pid, M)` in registration
order, stores module k's materialized entry under `encode(pid, k)`, and the
root's children are the `encode(pid, 0)` inodes of the listed processes in
enumeration order. -/
theorem c6_process_folder_layout (conn_id : String) (mods : List VMFSModule)
    (hM : mods.length < U32) (pi : Win32ProcessInfo) (fs : FSMap)
    (hfresh : ∀ j ∈ FSMap.keys fs, j % U32 ≠ pidBits pi.pid) :
    (create_process_folder conn_id mods pi fs).2 = INode.encode (pidBits pi.pid) 0 ∧
    FSMap.get (create_process_folder conn_id mods pi fs).1 (INode.encode (pidBits pi.pid) 0) =
      some (VirtualEntry.Folder ⟨INode.encode (pidBits pi.pid) 0,
        toString pi.pid ++ "_" ++ pi.name.replace "." "_",
        (List.range mods.length).map (fun k => INode.encode (pidBits pi.pid) (k + 1))⟩) ∧
    (∀ k, (hk : k < mods.length) →
      FSMap.get (create_process_folder conn_id mods pi fs).1
          (INode.encode (pidBits pi.pid) (k + 1)) =
        some ((mods.get ⟨k, hk⟩).entry (INode.encode (pidBits pi.pid) (k + 1))
          (VMFSScopeContext.Process conn_id pi.pid))) ∧
    (∀ pis : List Win32ProcessInfo,
      FSMap.get (create_root_folder conn_id mods (some pis)) 0 =
        some (VirtualEntry.Folder ⟨0, conn_id,
          pis.map (fun pj => INode.encode (pidBits pj.pid) 0)⟩)) := by
  have hzero : (0 : Nat) < U32 := by
    simp [U32]
  have hpb := pidBits_lt pi.pid
  have he0 : ∀ q : Int, INode.encode (pidBits q) 0 = pidBits q := by
    intro q
    rw [encode_eq _ _ (pidBits_lt q) hzero]
    simp
  have hek : ∀ k, k < mods.length →
      INode.encode (pidBits pi.pid) (k + 1) = pidBits pi.pid + (k + 1) * U32 := by
    intro k hk
    exact encode_eq _ _ hpb (by omega)
  obtain ⟨c1, _, _, _, c5, c6, _⟩ := create_process_folder_spec conn_id mods pi fs hM hfresh
  refine ⟨?_, ?_, ?_, ?_⟩
  · rw [he0]
    exact c1
  · rw [he0, List.map_congr_left (fun k hk => hek k (List.mem_range.1 hk))]
    exact c5
  · intro k hk
    rw [hek k hk]
    exact c6 k hk
  · intro pis
    have hroot : create_root_folder conn_id mods (some pis) =
        FSMap.insert (pis.foldl (crf_step conn_id mods) ([], [])).1 0
          (VirtualEntry.Folder ⟨0, conn_id,
            (pis.foldl (crf_step conn_id mods) ([], [])).2⟩) := by
      rw [create_root_folder]
    rw [hroot, FSMap.get_insert_self, crf_fold_children,
      show (fun pj : Win32ProcessInfo => INode.encode (pidBits pj.pid) 0) =
        (fun pj : Win32ProcessInfo => pidBits pj.pid) from funext fun pj => he0 pj.pid]
    rfl

/-- Witness for C6: for the process (10, "a.exe") with one registered module
and an empty starting map, the builder returns the inode `encode(10, 0)`. -/
theorem c6_process_folder_layout_witness :
    (create_process_folder "c1" [dummyModule] ⟨10, "a.exe"⟩ []).2 =
      INode.encode (pidBits 10) 0 :=
  (c6_process_folder_layout "c1" [dummyModule] (by decide) ⟨10, "a.exe"⟩ []
    (by decide)).1

end Memflow
